import Mathlib

/-!
Shallow embedding of `src/services/sdkmanager.ts` (the pure parsing /
merging / sorting core).  JavaScript strings are modelled as Lean
`String`s (operated on through their `List Char` data so that every
definition is structural and kernel-executable), JavaScript `undefined`
for a possibly-missing string is modelled as `Option String`, and a
thrown `TypeError` is modelled as `none` in an `Option` result.
-/

namespace SdkMgr

/-- `InstallStates` enum of the source. -/
inductive InstallStates where
  | Installed
  | Available
  | Updateable
deriving DecidableEq, Repr

/-- The `Package` class of the source.  Fields that the source may leave
`undefined` (`version`, `description` when a line has fewer than three
fields, and `details`, which `parseList` never assigns) are `Option`s. -/
structure Package where
  category : String
  name : String
  rawName : String
  details : Option (List String)
  description : Option String
  version : Option String
  state : InstallStates
deriving DecidableEq, Repr

/-- JavaScript `s.split(c)` for a one-character separator, on char lists. -/
def splitCharList (c : Char) : List Char → List (List Char)
  | [] => [[]]
  | x :: rest =>
    let r := splitCharList c rest
    if x = c then [] :: r
    else
      match r with
      | [] => [[x]]
      | g :: gs => (x :: g) :: gs

/-- JavaScript `s.split('| ')`: split on the two-character separator
`"| "`, scanning left to right. -/
def splitPipeSpace : List Char → List (List Char)
  | [] => [[]]
  | [c] => [[c]]
  | c1 :: c2 :: rest =>
    if c1 = '|' ∧ c2 = ' ' then [] :: splitPipeSpace rest
    else
      match splitPipeSpace (c2 :: rest) with
      | [] => [[c1]]
      | g :: gs => (c1 :: g) :: gs

/-- Whether a char list contains an occurrence of the separator `"| "`. -/
def hasPipeSpace : List Char → Bool
  | [] => false
  | [_] => false
  | c1 :: c2 :: rest => (c1 = '|' && c2 = ' ') || hasPipeSpace (c2 :: rest)

/-- JavaScript `s.split(c)` on `String`s. -/
def jsSplitChar (c : Char) (s : String) : List String :=
  (splitCharList c s.data).map String.mk

/-- JavaScript `line.split('| ')` on `String`s. -/
def jsSplitPipe (s : String) : List String :=
  (splitPipeSpace s.data).map String.mk

/-- JavaScript `s.startsWith(pat)`. -/
def jsStartsWith (s pat : String) : Bool :=
  pat.data.isPrefixOf s.data

/-- JavaScript `s.endsWith(pat)`. -/
def jsEndsWith (s pat : String) : Bool :=
  pat.data.reverse.isPrefixOf s.data.reverse

/-- JavaScript `s.trim()` (ASCII whitespace suffices for this input). -/
def jsTrim (s : String) : String :=
  String.mk (((s.data.dropWhile Char.isWhitespace).reverse.dropWhile Char.isWhitespace).reverse)

/-- JavaScript `stdout.split(/\r?\n/)`: split on `'\n'`, then drop one
trailing `'\r'` from each piece. -/
def jsSplitLines (s : String) : List String :=
  (splitCharList '\n' s.data).map
    (fun l => String.mk (if l.getLast? = some '\r' then l.dropLast else l))

/-- JavaScript `arr.join(sep)`. -/
def joinWith (sep : String) : List String → String
  | [] => ""
  | [s] => s
  | s :: rest => s ++ sep ++ joinWith sep rest

/-- `parsePackageName` of the source:
`const names = name.split(';');`
`return [names[1] ? names.slice(1).join('; ') : names[0], names[0]];`
(note the JavaScript truthiness test `names[1] ?`: an *empty* second
segment counts as absent).  Result is `(name, category)`. -/
def parsePackageName (name : String) : String × String :=
  let names := jsSplitChar ';' name
  let first := names.headD ""
  match names[1]? with
  | some second => if second ≠ "" then (joinWith "; " (names.drop 1), first) else (first, first)
  | none => (first, first)

/-- The record-construction block that both section loops of `parseList`
share: split the line on `"| "`, trim each field, and populate a
`Package` (missing fields stay `undefined`, i.e. `none`). -/
def parseLineRecord (state : InstallStates) (line : String) : Package :=
  let elements := (jsSplitPipe line).map jsTrim
  let rawName := elements.headD ""
  let nc := parsePackageName rawName
  { category := nc.2
    name := nc.1
    rawName := rawName
    details := none
    description := elements[2]?
    version := elements[1]?
    state := state }

/-- JavaScript `parseInt(s, 10)`: skip leading whitespace, optional
sign, then the maximal run of decimal digits; `none` models `NaN`. -/
def parseIntJS (s : String) : Option Int :=
  let cs := s.data.dropWhile Char.isWhitespace
  let sc : Int × List Char :=
    match cs with
    | '-' :: rest => (-1, rest)
    | '+' :: rest => (1, rest)
    | _ => (1, cs)
  let ds := sc.2.takeWhile Char.isDigit
  match ds with
  | [] => none
  | _ =>
    some (sc.1 * (ds.foldl (fun acc c => acc * 10 + (c.toNat - '0'.toNat)) 0 : Nat))

/-- A version segment droppable by the regex `(\.0+)+$`: one or more
characters, all `'0'`. -/
def isZeroSegment (s : String) : Bool :=
  !s.data.isEmpty && s.data.all (fun c => c = '0')

/-- Effect of `a.replace(/(\.0+)+$/, '')` followed by `split('.')`:
the first segment is never preceded by a dot and so is always kept;
after it, the maximal trailing run of all-zero segments is removed. -/
def stripTrailingZeroSegments : List String → List String
  | [] => []
  | s :: rest => s :: ((rest.reverse.dropWhile isZeroSegment).reverse)

/-- The `for` loop of `cmpVersions`: `diff = parseInt(a) - parseInt(b)`,
`if (diff) return diff`.  A `NaN` difference (either side failing to
parse) is falsy, so the loop continues; `none` means the loop finished
without returning. -/
def cmpSegLoop : List String → List String → Option Int
  | a :: as, b :: bs =>
    (match parseIntJS a, parseIntJS b with
     | some x, some y => if x - y = 0 then cmpSegLoop as bs else some (x - y)
     | _, _ => cmpSegLoop as bs)
  | _, _ => none

/-- `cmpVersions` of the source. -/
def cmpVersions (a b : String) : Int :=
  let segmentsA := stripTrailingZeroSegments (jsSplitChar '.' a)
  let segmentsB := stripTrailingZeroSegments (jsSplitChar '.' b)
  match cmpSegLoop segmentsA segmentsB with
  | some diff => diff
  | none => (segmentsA.length : Int) - segmentsB.length

/-- The available-packages `for` loop of `parseList`.  `fuel` is a
structural-recursion bound (the caller passes more fuel than there are
remaining lines; the `0` case is unreachable).  The blank-line branch
does `pointer += 1; continue`, and `continue` runs the loop update
`pointer += 1` again, so a blank line advances the pointer by 2.
A `none` result models a thrown `TypeError` (`cmpVersions` called with
an `undefined` argument when a matched line has no version field). -/
def availLoop (lines : List String) : Nat → Nat → List Package → Option (List Package)
  | 0, _, _ => none
  | fuel + 1, pointer, packages =>
    if h : pointer < lines.length then
      let line := lines[pointer]
      if line = "" then
        availLoop lines fuel (pointer + 2) packages
      else if jsStartsWith line "Available Updates:" then
        some packages
      else
        let elements := (jsSplitPipe line).map jsTrim
        match packages.findIdx? (fun pkg => pkg.rawName == elements.headD "") with
        | none =>
          availLoop lines fuel (pointer + 1) (packages ++ [parseLineRecord .Available line])
        | some index =>
          match packages[index]? with
          | none => none
          | some p =>
            match p.version, elements[1]? with
            | some v, some rv =>
              if cmpVersions v rv < 0 then
                availLoop lines fuel (pointer + 1)
                  (packages.set index
                    { p with state := .Updateable, version := some (v ++ "(" ++ rv ++ ")") })
              else
                availLoop lines fuel (pointer + 1) packages
            | _, _ => none
    else
      some packages

/-- The installed-packages `for` loop of `parseList`.  On a blank line
the body does `pointer += 1` *without* `continue` and then reads
`lines[pointer]` again; when the blank line was the last line this
reads past the end of the array and `.startsWith` is called on
`undefined`, throwing a `TypeError` (modelled as `none`). -/
def instLoop (lines : List String) : Nat → Nat → List Package → Option (List Package)
  | 0, _, _ => none
  | fuel + 1, pointer, packages =>
    if h : pointer < lines.length then
      let p1 := if lines[pointer] = "" then pointer + 1 else pointer
      match lines[p1]? with
      | none => none
      | some line =>
        if jsStartsWith line "Available Packages:" then
          availLoop lines (fuel + 1) (p1 + 3) packages
        else
          instLoop lines fuel (p1 + 1) (packages ++ [parseLineRecord .Installed line])
    else
      availLoop lines (fuel + 1) pointer packages

/-- `parseList` of the source.  The initial skip loop finds the first
line ending with `"Installed packages:"` and jumps three lines past it;
when there is no such line the skip loop runs the pointer to the end of
the input, so both section loops are skipped. -/
def parseList (stdout : String) : Option (List Package) :=
  let lines := jsSplitLines stdout
  let pointer :=
    match lines.findIdx? (fun l => jsEndsWith l "Installed packages:") with
    | some i => i + 3
    | none => lines.length
  instLoop lines (lines.length + 1) pointer []

/-- JavaScript code-unit comparison `a < b` on strings (codepoint order;
identical on the ASCII data this tool handles). -/
def charListLt : List Char → List Char → Bool
  | _, [] => false
  | [], _ :: _ => true
  | a :: as, b :: bs =>
    if a.toNat < b.toNat then true
    else if b.toNat < a.toNat then false
    else charListLt as bs

/-- JavaScript `s.toLowerCase()` (ASCII range). -/
def jsToLower (s : String) : String :=
  String.mk (s.data.map Char.toLower)

/-- The comparator passed to `packages.sort` in `sort`:
`(nameA < nameB ? -1 : 1) * (order === 'asc' ? 1 : -1)`. -/
def sortCompare (order : String) (a b : Package) : Int :=
  (if charListLt (jsToLower a.rawName).data (jsToLower b.rawName).data then -1 else 1)
    * (if order = "asc" then 1 else -1)

/-- One ordered insertion step of the comparison sort. -/
def insertPkg (le : Package → Package → Bool) (a : Package) : List Package → List Package
  | [] => [a]
  | b :: rest => if le a b then a :: b :: rest else b :: insertPkg le a rest

/-- `sort` of the source.  `Array.prototype.sort` is an unspecified
comparison sort that reorders the array *in place* and returns that same
array; we model the resulting order with an insertion sort driven by the
source's comparator (an element goes before another when the comparator
does not report it greater).  Callers omitting the order argument get
the source's default `"desc"`. -/
def sort (packages : List Package) (order : String) : List Package :=
  packages.foldr (insertPkg (fun a b => decide (sortCompare order a b ≤ 0))) []

/-- C8: the version comparator strips trailing `.0` runs, compares
dot-separated segments numerically with the first non-zero difference
deciding, and otherwise returns the segment-count difference; the
spec's four concrete test values. -/
theorem claim8_cmpVersions_examples :
    cmpVersions "1.2" "1.2.0" = 0 ∧ cmpVersions "1.2" "1.3" < 0 ∧
      cmpVersions "1.10" "1.9" > 0 ∧ cmpVersions "1.2" "1.2.3" < 0 := by
  refine ⟨by decide, by decide, by decide, by decide⟩

/-- C10: `cmpVersions` is total on non-numeric segments: when either
segment of a compared pair fails to parse as an integer the `NaN`
difference is falsy and the loop just continues, so
`cmpVersions "1.alpha" "1.beta" = 0` and `cmpVersions "beta" "beta.1" < 0`,
and no error is ever raised (`cmpVersions` is a total function). -/
theorem claim10_nonNumeric_segments :
    (∀ (a b : String) (as bs : List String),
        parseIntJS a = none ∨ parseIntJS b = none →
        cmpSegLoop (a :: as) (b :: bs) = cmpSegLoop as bs)
    ∧ cmpVersions "1.alpha" "1.beta" = 0
    ∧ cmpVersions "beta" "beta.1" < 0 := by
  refine ⟨?_, by decide, by decide⟩
  intro a b as bs h
  rcases h with h | h
  · simp [cmpSegLoop, h]
  · simp only [cmpSegLoop, h]
    cases parseIntJS a <;> simp

/-- Witness for C10: the non-numeric segment `"x"` (paired with the
numeric `"3"`) decides nothing, concretely. -/
theorem claim10_witness :
    cmpSegLoop ("x" :: ["2"]) ("3" :: ["4"]) = cmpSegLoop ["2"] ["4"] :=
  claim10_nonNumeric_segments.1 "x" "3" ["2"] ["4"] (Or.inl (by decide))

/-- C1 (failing input): on an input whose installed section ends in a
blank final line, the blank-line branch advances the pointer past the
end of the line array and the following `lines[pointer].startsWith`
call throws a `TypeError` (`none` here), so `parseList` is *not* total
as the claim states. -/
theorem claim1_trailing_blank_crash :
    parseList "Installed packages:\n\n\n" = none := by decide

/-- C2 (counterexample): in the available section a blank line does
*not* cause only that line to be skipped — the data line
`"a;x| 1.0| da"` immediately after the blank line is skipped as well
(the `continue` re-runs the loop update), so it never becomes a record:
the output holds only the `"b;y"` record. -/
theorem claim2_counterexample :
    parseList "Installed packages:\nl1\nl2\nAvailable Packages:\nh1\nh2\n\na;x| 1.0| da\nb;y| 2.0| db"
      = some [{ category := "b", name := "y", rawName := "b;y", details := none,
                description := some "db", version := some "2.0", state := .Available }] := by
  decide

/-- C2 (amended): a blank line inside the available section advances
the scan by *two* lines — the manual `pointer += 1` plus the `for`
update run by `continue` — skipping the blank line and the line right
after it; the section is not terminated and scanning continues there. -/
theorem claim2_blank_advances_two (lines : List String) (fuel pointer : Nat)
    (packages : List Package) (h : lines[pointer]? = some "") :
    availLoop lines (fuel + 1) pointer packages
      = availLoop lines fuel (pointer + 2) packages := by
  rcases List.getElem?_eq_some_iff.mp h with ⟨hlt, hv⟩
  simp only [availLoop]
  rw [dif_pos hlt, if_pos hv]

/-- Witness for C2's amended theorem at a concrete line list. -/
theorem claim2_witness :
    availLoop ["", "a;x| 1.0| d"] 2 0 [] = availLoop ["", "a;x| 1.0| d"] 1 2 [] :=
  claim2_blank_advances_two ["", "a;x| 1.0| d"] 1 0 [] (by decide)

/-- C3 (counterexample): an input with an `"Available Packages:"`
section but no line ending in `"Installed packages:"` yields the empty
catalog — the available section is *not* scanned from line 0 as the
claim states, because the initial skip loop runs the pointer to the end
of the input. -/
theorem claim3_counterexample :
    parseList "Available Packages:\nh1\nh2\na;x| 1.0| d" = some [] := by decide

/-- C3 (amended): if no line of the input ends with
`"Installed packages:"`, the skip loop leaves the pointer at the end of
the line array, both section loops run zero iterations, and `parseList`
returns the empty catalog — even when an `"Available Packages:"`
section is present. -/
theorem claim3_no_header_yields_empty (stdout : String)
    (h : ∀ l ∈ jsSplitLines stdout, jsEndsWith l "Installed packages:" = false) :
    parseList stdout = some [] := by
  have hfind : (jsSplitLines stdout).findIdx? (fun l => jsEndsWith l "Installed packages:")
      = none := List.findIdx?_eq_none_iff.mpr h
  simp only [parseList, hfind]
  simp only [instLoop, availLoop]
  rw [dif_neg (lt_irrefl _), dif_neg (lt_irrefl _)]

/-- Witness for C3's amended theorem on a concrete header-free input. -/
theorem claim3_witness : parseList "hello\nAvailable Packages:\nworld" = some [] :=
  claim3_no_header_yields_empty "hello\nAvailable Packages:\nworld" (by decide)

/-- Replacing the element at `i` by one with the same `rawName` leaves
the list of raw names unchanged. -/
theorem map_rawName_set (l : List Package) (i : Nat) (p q : Package)
    (hl : l[i]? = some p) (hq : q.rawName = p.rawName) :
    (l.set i q).map Package.rawName = l.map Package.rawName := by
  induction l generalizing i with
  | nil => simp at hl
  | cons a l ih =>
    cases i with
    | zero =>
      simp only [List.getElem?_cons_zero, Option.some.injEq] at hl
      simp [List.set, hq, hl]
    | succ i =>
      simp only [List.getElem?_cons_succ] at hl
      simp [List.set, ih i hl]

/-- C5 (counterexample): an installed section holding the same data
line twice produces a catalog with two entries of equal `rawName` —
the installed loop appends without any deduplication. -/
theorem claim5_counterexample :
    Option.map (List.map Package.rawName)
        (parseList "Installed packages:\nh1\nh2\na;x| 1.0| d\na;x| 1.0| d")
      = some ["a;x", "a;x"]
    ∧ ¬ (["a;x", "a;x"] : List String).Nodup := ⟨by decide, by decide⟩

/-- C5 (amended): only the available-section merge resolves `rawName`
collisions.  Starting from any catalog whose raw names are pairwise
distinct (as the installed phase yields when its own lines are
distinct), the available loop preserves that distinctness: a record is
appended only when its `rawName` is absent, and the update branch keeps
the entry's `rawName`.  Duplicates created by the installed section
itself survive to the output. -/
theorem claim5_avail_preserves_nodup :
    ∀ (fuel : Nat) (lines : List String) (pointer : Nat) (packages ps : List Package),
      (packages.map Package.rawName).Nodup →
      availLoop lines fuel pointer packages = some ps →
      (ps.map Package.rawName).Nodup := by
  intro fuel
  induction fuel with
  | zero =>
    intro lines pointer packages ps hnd h
    exact absurd h (by simp [availLoop])
  | succ fuel ih =>
    intro lines pointer packages ps hnd h
    simp only [availLoop] at h
    split at h
    · -- pointer < lines.length
      split at h
      · -- blank line
        exact ih _ _ _ _ hnd h
      · split at h
        · -- "Available Updates:" terminates the scan
          exact (Option.some.inj h) ▸ hnd
        · split at h
          · -- findIdx? = none: a fresh record is appended
            next hfind =>
            refine ih _ _ _ _ ?_ h
            rw [List.findIdx?_eq_none_iff] at hfind
            simp only [List.map_append, List.map_cons, List.map_nil]
            rw [List.nodup_append]
            refine ⟨hnd, List.nodup_singleton _, ?_⟩
            intro a ha hb
            rw [List.mem_singleton] at hb
            rcases List.mem_map.mp ha with ⟨pkg, hpkg, hraw⟩
            have hf := hfind pkg hpkg
            rw [hb] at hraw
            simp only [parseLineRecord] at hraw
            rw [hraw] at hf
            simp at hf
          · -- findIdx? = some index: merge into the existing entry
            next index hfind =>
            split at h
            · exact absurd h (by simp)
            · next p hget =>
              split at h
              · next v rv hv hrv =>
                split at h
                · refine ih _ _ _ _ ?_ h
                  rw [map_rawName_set packages index p
                    { p with state := InstallStates.Updateable,
                             version := some (v ++ "(" ++ rv ++ ")") } hget rfl]
                  exact hnd
                · exact ih _ _ _ _ hnd h
              · exact absurd h (by simp)
    · -- pointer past the end: the loop returns the catalog unchanged
      exact (Option.some.inj h) ▸ hnd

/-- Witness for C5's amended theorem: a concrete one-line available
section merged into a distinct catalog keeps raw names distinct. -/
theorem claim5_witness :
    (([{ category := "a", name := "x", rawName := "a;x", details := none,
         description := some "d", version := some "2.0",
         state := .Installed }] : List Package).map Package.rawName).Nodup :=
  claim5_avail_preserves_nodup 2 ["a;x| 1.0| d"] 0
    [{ category := "a", name := "x", rawName := "a;x", details := none,
       description := some "d", version := some "2.0", state := .Installed }]
    [{ category := "a", name := "x", rawName := "a;x", details := none,
       description := some "d", version := some "2.0", state := .Installed }]
    (by decide) (by decide)

/-- C6: when an available-section line matches an existing entry's
`rawName` and the installed version compares strictly less than the
candidate under `cmpVersions`, the merge rewrites exactly that entry:
`state` becomes `Updateable` and `version` becomes
`"<installed>(<candidate>)"`, while every other field (`description`,
`category`, `name`, `rawName`, `details`) is kept (the `{ p with ... }`
update); end to end, installed `"a;x| 1.0| desc"` with available
`"a;x| 2.0| desc"` yields one `Updateable` record with version
`"1.0(2.0)"`. -/
theorem claim6_updateable_merge :
    (∀ (lines : List String) (fuel pointer : Nat) (packages : List Package)
        (line : String) (index : Nat) (p : Package) (v rv : String),
        lines[pointer]? = some line →
        line ≠ "" →
        jsStartsWith line "Available Updates:" = false →
        packages.findIdx?
            (fun pkg => pkg.rawName == ((jsSplitPipe line).map jsTrim).headD "") = some index →
        packages[index]? = some p →
        p.version = some v →
        ((jsSplitPipe line).map jsTrim)[1]? = some rv →
        cmpVersions v rv < 0 →
        availLoop lines (fuel + 1) pointer packages
          = availLoop lines fuel (pointer + 1)
              (packages.set index
                { p with state := .Updateable, version := some (v ++ "(" ++ rv ++ ")") }))
    ∧ parseList "Installed packages:\nh1\nh2\na;x| 1.0| desc\nAvailable Packages:\nh1\nh2\na;x| 2.0| desc"
        = some [{ category := "a", name := "x", rawName := "a;x", details := none,
                  description := some "desc", version := some "1.0(2.0)",
                  state := .Updateable }] := by
  constructor
  · intro lines fuel pointer packages line index p v rv hline hblank hupd hfind hget hv hrv hcmp
    rcases List.getElem?_eq_some_iff.mp hline with ⟨hlt, hval⟩
    simp only [availLoop]
    rw [dif_pos hlt]
    simp only [hval, if_neg hblank, hupd, Bool.false_eq_true, if_false, hfind, hget, hv, hrv,
      if_pos hcmp]
  · decide

/-- Witness for C6: one concrete merge step flips the matched entry to
`Updateable` with the rewritten version string. -/
theorem claim6_witness :
    availLoop ["a;x| 2.0| desc"] 2 0
        [{ category := "a", name := "x", rawName := "a;x", details := none,
           description := some "desc", version := some "1.0", state := .Installed }]
      = availLoop ["a;x| 2.0| desc"] 1 1
          ([{ category := "a", name := "x", rawName := "a;x", details := none,
              description := some "desc", version := some "1.0",
              state := .Installed }].set 0
            { category := "a", name := "x", rawName := "a;x", details := none,
              description := some "desc", version := some ("1.0" ++ "(" ++ "2.0" ++ ")"),
              state := .Updateable }) :=
  claim6_updateable_merge.1 ["a;x| 2.0| desc"] 1 0
    [{ category := "a", name := "x", rawName := "a;x", details := none,
       description := some "desc", version := some "1.0", state := .Installed }]
    "a;x| 2.0| desc" 0
    { category := "a", name := "x", rawName := "a;x", details := none,
      description := some "desc", version := some "1.0", state := .Installed }
    "1.0" "2.0" (by decide) (by decide) (by decide) (by decide) (by decide) rfl
    (by decide) (by decide)

/-- C7: when an available-section line matches an existing entry but
the candidate version does not compare greater, the catalog is left
completely unchanged — the entry keeps its state and fields and the
available duplicate is discarded; end to end, installed
`"a;x| 2.0| desc"` with available `"a;x| 1.0| desc"` yields one
`Installed` record with version `"2.0"`. -/
theorem claim7_no_downgrade :
    (∀ (lines : List String) (fuel pointer : Nat) (packages : List Package)
        (line : String) (index : Nat) (p : Package) (v rv : String),
        lines[pointer]? = some line →
        line ≠ "" →
        jsStartsWith line "Available Updates:" = false →
        packages.findIdx?
            (fun pkg => pkg.rawName == ((jsSplitPipe line).map jsTrim).headD "") = some index →
        packages[index]? = some p →
        p.version = some v →
        ((jsSplitPipe line).map jsTrim)[1]? = some rv →
        ¬ cmpVersions v rv < 0 →
        availLoop lines (fuel + 1) pointer packages
          = availLoop lines fuel (pointer + 1) packages)
    ∧ parseList "Installed packages:\nh1\nh2\na;x| 2.0| desc\nAvailable Packages:\nh1\nh2\na;x| 1.0| desc"
        = some [{ category := "a", name := "x", rawName := "a;x", details := none,
                  description := some "desc", version := some "2.0",
                  state := .Installed }] := by
  constructor
  · intro lines fuel pointer packages line index p v rv hline hblank hupd hfind hget hv hrv hcmp
    rcases List.getElem?_eq_some_iff.mp hline with ⟨hlt, hval⟩
    simp only [availLoop]
    rw [dif_pos hlt]
    simp only [hval, if_neg hblank, hupd, Bool.false_eq_true, if_false, hfind, hget, hv, hrv,
      if_neg hcmp]
  · decide

/-- Witness for C7: one concrete merge step with an older candidate
leaves the catalog untouched. -/
theorem claim7_witness :
    availLoop ["a;x| 1.0| desc"] 2 0
        [{ category := "a", name := "x", rawName := "a;x", details := none,
           description := some "desc", version := some "2.0", state := .Installed }]
      = availLoop ["a;x| 1.0| desc"] 1 1
          [{ category := "a", name := "x", rawName := "a;x", details := none,
             description := some "desc", version := some "2.0", state := .Installed }] :=
  claim7_no_downgrade.1 ["a;x| 1.0| desc"] 1 0
    [{ category := "a", name := "x", rawName := "a;x", details := none,
       description := some "desc", version := some "2.0", state := .Installed }]
    "a;x| 1.0| desc" 0
    { category := "a", name := "x", rawName := "a;x", details := none,
      description := some "desc", version := some "2.0", state := .Installed }
    "2.0" "1.0" (by decide) (by decide) (by decide) (by decide) (by decide) rfl
    (by decide) (by decide)

/-- Inserting an element yields a permutation of consing it. -/
theorem insertPkg_perm (le : Package → Package → Bool) (a : Package) (l : List Package) :
    (insertPkg le a l).Perm (a :: l) := by
  induction l with
  | nil => exact List.Perm.refl _
  | cons b l ih =>
    simp only [insertPkg]
    split
    · exact List.Perm.refl _
    · exact (ih.cons b).trans (List.Perm.swap a b l)

/-- The catalog called with `rawName` values `["b", "A", "c"]` used by
the spec's sorter example. -/
def sortExampleCatalog : List Package :=
  [{ category := "b", name := "b", rawName := "b", details := none,
     description := none, version := none, state := .Installed },
   { category := "A", name := "A", rawName := "A", details := none,
     description := none, version := none, state := .Available },
   { category := "c", name := "c", rawName := "c", details := none,
     description := none, version := none, state := .Updateable }]

/-- C4 (counterexample): `sort` is built on `Array.prototype.sort`,
which reorders the array *in place* and returns that same array — after
the call the caller's array holds the sorted order.  On the spec's own
`["b", "A", "c"]` catalog with the default `"desc"` direction the
sorted order differs from the original order, so the input array is
*not* left unchanged. -/
theorem claim4_counterexample :
    sort sortExampleCatalog "desc" ≠ sortExampleCatalog := by decide

/-- C4 (amended): `sort` reorders the catalog by the case-insensitive
`rawName` comparator — the result is a permutation of the input in
which every package record (all fields, including `state`) is
preserved, and on the spec's example ascending gives `["A","b","c"]`
and descending the reverse — but it does so by mutating the array in
place (the returned array is the input array, reordered), so the
input array's original ordering is not preserved. -/
theorem claim4_sort_perm_and_order :
    (∀ (packages : List Package) (order : String), (sort packages order).Perm packages)
    ∧ (sort sortExampleCatalog "asc").map Package.rawName = ["A", "b", "c"]
    ∧ (sort sortExampleCatalog "desc").map Package.rawName = ["c", "b", "A"] := by
  refine ⟨?_, by decide, by decide⟩
  intro packages order
  induction packages with
  | nil => exact List.Perm.refl _
  | cons p l ih =>
    exact (insertPkg_perm _ p (sort l order)).trans (ih.cons p)

/-- A chunk without the separator splits as itself. -/
theorem splitPipeSpace_no_sep (l : List Char) (h : hasPipeSpace l = false) :
    splitPipeSpace l = [l] := by
  induction l with
  | nil => rfl
  | cons c1 t ih =>
    cases t with
    | nil => rfl
    | cons c2 t =>
      simp only [hasPipeSpace, Bool.or_eq_false_iff, Bool.and_eq_false_iff] at h
      simp only [splitPipeSpace]
      rw [if_neg (by
        rintro ⟨h1, h2⟩
        rcases h.1 with hc | hc <;> simp [h1, h2] at hc)]
      rw [ih h.2]

/-- Scanning a chunk without the separator followed by `"| "` cuts
exactly at that separator. -/
theorem splitPipeSpace_append (l r : List Char) (h : hasPipeSpace l = false) :
    splitPipeSpace (l ++ '|' :: ' ' :: r) = l :: splitPipeSpace r := by
  induction l with
  | nil => simp [splitPipeSpace]
  | cons c1 t ih =>
    cases t with
    | nil => simp [splitPipeSpace]
    | cons c2 t =>
      simp only [hasPipeSpace, Bool.or_eq_false_iff, Bool.and_eq_false_iff] at h
      simp only [List.cons_append, splitPipeSpace]
      rw [if_neg (by
        rintro ⟨h1, h2⟩
        rcases h.1 with hc | hc <;> simp [h1, h2] at hc)]
      have ihh := ih h.2
      simp only [List.cons_append, List.append_eq] at ihh ⊢
      simp only [ihh]

/-- Modelled from the spec: the spec's rule for the `name` field —
"the remaining segments rejoined with `\"; \"`, or the first segment
itself if there are no remaining segments". -/
def specRecordName (rawName : String) : String :=
  let segs := jsSplitChar ';' rawName
  if segs.drop 1 = [] then segs.headD "" else joinWith "; " (segs.drop 1)

/-- C9 (counterexample): for `rawName = "a;;b"` the remaining segments
`["", "b"]` are nonempty, so the claim's rule gives `name = "; b"`;
but the source tests `names[1] ?` — JavaScript truthiness, under which
the empty second segment counts as absent — and yields
`name = names[0] = "a"`. -/
theorem claim9_counterexample :
    (parsePackageName "a;;b").1 = "a" ∧ specRecordName "a;;b" = "; b"
      ∧ ("a" : String) ≠ "; b" := ⟨by decide, by decide, by decide⟩

/-- C9 (amended): for every three-field line `"A| B| C"` whose fields
contain no `"| "` delimiter and carry no surrounding whitespace, the
record parser yields `rawName = A`, `version = B`, `description = C`,
with `category` the first `";"`-segment of `A`; `name` is the remaining
segments rejoined with `"; "` *when the second segment is nonempty*,
and the first segment itself when there are no remaining segments or
the second segment is the empty string (JavaScript truthiness of
`names[1]`). -/
theorem claim9_record_parse (A B C : String) (st : InstallStates)
    (hA : hasPipeSpace A.data = false) (hB : hasPipeSpace B.data = false)
    (hC : hasPipeSpace C.data = false)
    (tA : jsTrim A = A) (tB : jsTrim B = B) (tC : jsTrim C = C) :
    parseLineRecord st (A ++ "| " ++ B ++ "| " ++ C)
      = { category := (jsSplitChar ';' A).headD ""
          name :=
            match (jsSplitChar ';' A)[1]? with
            | some second =>
              if second ≠ "" then joinWith "; " ((jsSplitChar ';' A).drop 1)
              else (jsSplitChar ';' A).headD ""
            | none => (jsSplitChar ';' A).headD ""
          rawName := A
          details := none
          description := some C
          version := some B
          state := st } := by
  have hps : ("| " : String).data = '|' :: ' ' :: [] := rfl
  have hdata : (A ++ "| " ++ B ++ "| " ++ C).data
      = A.data ++ '|' :: ' ' :: (B.data ++ '|' :: ' ' :: C.data) := by
    simp [String.data_append, hps, List.append_assoc]
  have hmk : ∀ s : String, String.mk s.data = s := fun _ => rfl
  simp only [parseLineRecord, jsSplitPipe, hdata,
    splitPipeSpace_append _ _ hA, splitPipeSpace_append _ _ hB,
    splitPipeSpace_no_sep _ hC, List.map_cons, List.map_nil, hmk]
  simp only [List.headD_cons, List.getElem?_cons_zero, List.getElem?_cons_succ, tA, tB, tC]
  simp only [parsePackageName, Package.mk.injEq]
  refine ⟨?_, ?_, trivial, trivial, trivial, trivial, trivial⟩ <;>
  · cases h2 : (jsSplitChar ';' A)[1]? with
    | none => rfl
    | some second => by_cases hs : second = "" <;> simp [h2, hs]

/-- Witness for C9's amended theorem at the spec's own example line. -/
theorem claim9_witness :
    parseLineRecord .Available ("platforms;android-30" ++ "| " ++ "30.0.0" ++ "| " ++ "Android 30")
      = { category := "platforms"
          name :=
            match (jsSplitChar ';' "platforms;android-30")[1]? with
            | some second =>
              if second ≠ "" then joinWith "; " ((jsSplitChar ';' "platforms;android-30").drop 1)
              else (jsSplitChar ';' "platforms;android-30").headD ""
            | none => (jsSplitChar ';' "platforms;android-30").headD ""
          rawName := "platforms;android-30"
          details := none
          description := some "Android 30"
          version := some "30.0.0"
          state := .Available } :=
  claim9_record_parse "platforms;android-30" "30.0.0" "Android 30" .Available
    (by decide) (by decide) (by decide) (by decide) (by decide) (by decide)

end SdkMgr
